import Mathlib

/-!
Verification of the `Notation.Glob` pattern-algebra engine
(`src/core/notation.glob.js` of the repository under review).

The JavaScript source works on plain strings; glob patterns are tokenized by
the regular expressions `reVALIDATOR` / `reMATCHER` into "notes" (levels) such
as `x`, `*`, `[2]`, `[*]`, `['key']`.  We embed the source shallowly:

* strings are Lean `String`s, manipulated through their character lists;
* the two regexes are embedded as a recursive-descent tokenizer implementing
  exactly the grammar the regexes spell out (optional `!`, one leading note,
  then `[..]`-notes or `.`-separated notes);
* every operation (`_covers`, `_intersect`, `compare`, `sort`, `normalize`,
  `hasMagic`, `isValid`) is translated function-by-function from the source,
  with thrown `NotationError`s modelled by `Except`/`Option`.
-/

set_option autoImplicit false

namespace NGlob

/-! ## Character and string helpers -/

/-- Whitespace class used by JavaScript `String.prototype.trim` and the `\s`
regex class (ASCII part plus NBSP and BOM; the globs under verification are
ASCII). -/
def isWS (c : Char) : Bool :=
  c == ' ' || c == '\t' || c == '\n' || c == '\r' || c == '\x0b' || c == '\x0c'
  || c == ' ' || c == '﻿'

/-- JavaScript `glob.trim()`. -/
def trimS (s : String) : String :=
  String.mk (((s.data.dropWhile isWS).reverse.dropWhile isWS).reverse)

/-- First character of `[a-z$_][a-z$_\d]*` with the `i` flag (so also `A-Z`). -/
def isVarStart (c : Char) : Bool :=
  ('a' ≤ c && c ≤ 'z') || ('A' ≤ c && c ≤ 'Z') || c == '$' || c == '_'

/-- Continuation character of the identifier class `[a-z$_\d]` (`i` flag). -/
def isVarChar (c : Char) : Bool :=
  isVarStart c || c.isDigit

/-- Value of a decimal digit string, as `parseInt(digits, 10)` computes it. -/
def natOfDigits (cs : List Char) : Nat :=
  cs.foldl (fun n c => n * 10 + (c.toNat - '0'.toNat)) 0

/-- JavaScript `glob[0] === '!'`. -/
def headBang (s : String) : Bool :=
  s.data.head? == some '!'

/-- Code-unit lexicographic `<` on strings (JavaScript `a < b`; the inputs here
are ASCII so code-unit order and code-point order agree). -/
def strLtB : List Char → List Char → Bool
  | [], [] => false
  | [], _ :: _ => true
  | _ :: _, [] => false
  | a :: as, b :: bs =>
    if a.toNat < b.toNat then true
    else if b.toNat < a.toNat then false
    else strLtB as bs

/-! ## Note tokens

A *note* is one token of a glob, e.g. `x`, `*`, `[2]`, `[*]`, `["a b"]`.
The source classifies notes with the regexes `VAR`, `ARRAY_NOTE`,
`ARRAY_GLOB_NOTE`, `OBJECT_BRACKETS`, `WILDCARD` from `utils.js`. -/

/-- Regex `VAR = /^[a-z$_][a-z$_\d]*$/i`. -/
def isVarTok (s : String) : Bool :=
  match s.data with
  | [] => false
  | c :: cs => isVarStart c && cs.all isVarChar

/-- Regex `ARRAY_NOTE = /^\[(\d+)\]$/`: returns `parseInt(m[1], 10)` on match. -/
def arrayNoteIdx (s : String) : Option Nat :=
  match s.data with
  | '[' :: rest =>
    match rest.reverse with
    | ']' :: digitsRev =>
      let ds := digitsRev.reverse
      if ds ≠ [] && ds.all Char.isDigit then some (natOfDigits ds) else none
    | _ => none
  | _ => none

/-- Regex `WILDCARD = /^(\[\*\]|\*)$/`. -/
def isWildTok (s : String) : Bool :=
  s == "*" || s == "[*]"

/-- Regex `ARRAY_GLOB_NOTE = /^\[(\d+|\*)\]$/`, i.e. `ARRAY_NOTE` or `[*]`. -/
def isArrGlobNote (s : String) : Bool :=
  (arrayNoteIdx s).isSome || s == "[*]"

/-- Strips one quoted bracket layer: `cs` must be `q :: inner ++ [q, ']']` with
`inner` free of line terminators (the regex `.` does not match them). This is
the anchored `(?:'(.*)'|"(.*)")\]$` shape: the greedy `(.*)` reaches to the
closing quote directly before the final `]`. -/
def stripQuoted (q : Char) (cs : List Char) : Option (List Char) :=
  match cs with
  | c :: rest =>
    if c == q then
      match rest.reverse with
      | ']' :: q' :: innerRev =>
        if q' == q && innerRev.all (fun ch => ch ≠ '\n' && ch ≠ '\r') then
          some innerRev.reverse
        else none
      | _ => none
    else none
  | [] => none

/-- Regex `OBJECT_BRACKETS = /^\[(?:'(.*)'|"(.*)"|`(.*)`)\]$/`: inner text of a
bracket note quoted with `'`, `"` or a backtick (tried in that order). -/
def objBracketInner (s : String) : Option String :=
  match s.data with
  | '[' :: rest =>
    match stripQuoted '\'' rest with
    | some inner => some (String.mk inner)
    | none =>
      match stripQuoted '"' rest with
      | some inner => some (String.mk inner)
      | none =>
        match stripQuoted '`' rest with
        | some inner => some (String.mk inner)
        | none => none
  | _ => none

/-- Result of `utils.normalizeNote`.  In JavaScript the function returns a
string (`Key`), a number (array index), or — via the `(m[1] || m[2] || m[3])`
falsiness quirk for an empty quoted bracket — `undefined`; a non-matching note
throws (`none` here). Strict `===` equality of these values is structural
equality of `NoteVal` (a string is never `===` a number or `undefined`). -/
inductive NoteVal where
  | str (s : String)
  | num (n : Nat)
  | undef
deriving DecidableEq, Repr

/-- Function `utils.normalizeNote` (`none` models the thrown `NotationError`). -/
def normalizeNoteV (s : String) : Option NoteVal :=
  if isVarTok s then some (.str s)
  else
    match arrayNoteIdx s with
    | some n => some (.num n)
    | none =>
      match objBracketInner s with
      | some inner => some (if inner == "" then .undef else .str inner)
      | none => none

/-! ## Tokenizer

Embedding of `reVALIDATOR` (validation) and `reMATCHER` (splitting into
notes). The regex grammar is: one leading note — `*`, an identifier, or a
bracket note `[digits]` / `[*]` / `['…']` / `["…"]` — followed by any number
of further notes, each either a bracket note or `.`-prefixed identifier /
`.*`. Quoted bracket inner text is matched greedily with backtracking, which
we reproduce by trying the candidate closing quotes longest-first
(`findSome?` over `parseBracket`'s candidate list). -/

/-- Longest run of identifier-continuation characters. -/
def takeVar : List Char → List Char × List Char
  | [] => ([], [])
  | c :: cs =>
    if isVarChar c then
      let (t, r) := takeVar cs
      (c :: t, r)
    else ([], c :: cs)

/-- Longest run of decimal digits. -/
def takeDigits : List Char → List Char × List Char
  | [] => ([], [])
  | c :: cs =>
    if c.isDigit then
      let (t, r) := takeDigits cs
      (c :: t, r)
    else ([], c :: cs)

/-- All decompositions `cs = inner ++ [q, ']'] ++ rest` with `inner` free of
line terminators, shortest `inner` first. -/
def quotedSplits (q : Char) : List Char → List (List Char × List Char)
  | [] => []
  | c :: cs =>
    let deeper :=
      if c == '\n' || c == '\r' then []
      else (quotedSplits q cs).map (fun p => (c :: p.1, p.2))
    if c == q then
      match cs with
      | ']' :: rest => ([], rest) :: deeper
      | _ => deeper
    else deeper

/-- Candidate parses of a bracket note, given the characters after the opening
`[`.  Each candidate is `(token characters, remaining characters)`; quoted
candidates come longest-first, reproducing the greedy `(.*)`. A digit run has
a single viable candidate (a shorter run would leave a digit before `]`). -/
def parseBracket : List Char → List (List Char × List Char)
  | [] => []
  | c :: cs =>
    if c == '*' then
      match cs with
      | ']' :: rest => [(['[', '*', ']'], rest)]
      | _ => []
    else if c.isDigit then
      match takeDigits (c :: cs) with
      | (ds, ']' :: rest) => [('[' :: ds ++ [']'], rest)]
      | _ => []
    else if c == '\'' || c == '"' then
      ((quotedSplits c cs).map
        (fun p => ('[' :: c :: (p.1 ++ [c, ']']), p.2))).reverse
    else []

/-- Parses the remainder of a glob after its first note:
`(\[(\d+|\*|".*"|'.*')\]|\.[a-z$_][a-z$_\d]*|\.\*)*$`, returning the note
tokens. `fuel` only needs to dominate the number of characters (every note
consumes at least two of them); the `.*` and `.identifier` alternatives are
distinguished by the character after the dot (`*` cannot start an
identifier). -/
def parseRest : Nat → List Char → Option (List String)
  | 0, cs => if cs.isEmpty then some [] else none
  | fuel + 1, cs =>
    match cs with
    | [] => some []
    | '.' :: cs' =>
      match cs' with
      | [] => none
      | c :: cs'' =>
        if c == '*' then (parseRest fuel cs'').map (fun ts => "*" :: ts)
        else if isVarStart c then
          let p := takeVar cs''
          (parseRest fuel p.2).map (fun ts => String.mk (c :: p.1) :: ts)
        else none
    | '[' :: cs' =>
      (parseBracket cs').findSome?
        (fun p => (parseRest fuel p.2).map (fun ts => String.mk p.1 :: ts))
    | _ => none

/-- Parses a whole absolute glob (no `!` prefix) into its notes; `none` when
the glob fails `reVALIDATOR`. The leading note is `*`, an identifier (the
longest identifier prefix — a shorter one would be followed by an identifier
character, which no continuation alternative accepts), or a bracket note. -/
def parseGlobTokens (cs : List Char) : Option (List String) :=
  match cs with
  | [] => none
  | '*' :: rest => (parseRest rest.length rest).map (fun ts => "*" :: ts)
  | '[' :: cs' =>
    (parseBracket cs').findSome?
      (fun p => (parseRest p.2.length p.2).map (fun ts => String.mk p.1 :: ts))
  | c :: cs' =>
    if isVarStart c then
      let p := takeVar cs'
      (parseRest p.2.length p.2).map (fun ts => String.mk (c :: p.1) :: ts)
    else none

/-- Splits a glob into its optional negation bang and note tokens; `none` when
the glob is invalid. (`reVALIDATOR` allows at most one leading `!`.) -/
def parseValidPair (s : String) : Option (Bool × List String) :=
  match s.data with
  | '!' :: rest => (parseGlobTokens rest).map (fun ts => (true, ts))
  | cs => (parseGlobTokens cs).map (fun ts => (false, ts))

/-- Validator `Glob.isValid`: `typeof glob === 'string' && reVALIDATOR.test(glob)` —
the string half (the `typeof` guard is modelled at `isValidJS`). -/
def isValidStr (s : String) : Bool :=
  (parseValidPair s).isSome

/-! ## Joining and trailing-wildcard stripping -/

/-- Function `utils.joinNotes`: concatenates notes, inserting a `.` before a following
note unless that note is falsy or starts with `[`; a falsy (empty) note
contributes nothing. -/
def joinNotes : List String → String
  | [] => ""
  | [c] => if c == "" then "" else c
  | c :: next :: rest =>
    (if c == "" then ""
     else if next == "" then c
     else if next.data.head? == some '[' then c
     else c ++ ".") ++ joinNotes (next :: rest)

/-- Token-level effect of `utils.removeTrailingWildcards`
(`/^(?!!)(.+?)(\.\*|\[\*\])+$/` replaced by `$1`): the lazy `(.+?)` makes the
trailing group maximal, but the prefix must stay non-empty, so the maximal run
of trailing `*` / `[*]` notes after the first note is removed. (For a valid
glob the trailing `\.\*`/`\[\*\]` character units are exactly the trailing
wildcard notes: a quoted bracket note always ends in a quote followed by `]`.)
-/
def dropTrailingWilds (toks : List String) : List String :=
  match toks with
  | [] => []
  | f :: rest => f :: ((rest.reverse.dropWhile isWildTok).reverse)

/-- Function `Glob.split(glob, normalize)`: validates, strips trailing wildcards when
`normalize` is set and the glob is not negated, drops the `!`, and tokenizes.
`none` models the thrown `NotationError`. -/
def split (glob : String) (normalize : Bool) : Option (List String) :=
  match parseValidPair glob with
  | none => none
  | some (neg, toks) =>
    some (if !neg && normalize then dropTrailingWilds toks else toks)

/-! ## Inspection (`Glob._inspect` and the `Glob` constructor) -/

/-- Errors thrown by the source (`NotationError`), split by the message kind
relevant to the claims, plus fuel exhaustion for the `normalize` fixed-point
recursion (the source recurses until no new intersections appear). -/
inductive NErr where
  | invalid (glob : String)
  | integrity
  | fuelOut
deriving DecidableEq, Repr

/-- Regex `/^\[[^'"]/`, used for `isArrayGlob`: the absolute glob starts with `[`
followed by a character other than a quote (`[*]`, `[1]` are array globs,
`["1"]` is not). -/
def isArrayGlobStr (s : String) : Bool :=
  match s.data with
  | '[' :: c :: _ => c ≠ '\'' && c ≠ '"'
  | _ => false

/-- The inspection object produced by `Glob._inspect`, together with the
`notes` computed by the `Glob` constructor (`Glob.split(ins.absGlob)`; for an
inspect-only object `_covers` recomputes the same notes on demand).
`glob`/`absGlob` are reconstructed through `joinNotes`, which is the identity
on the tokenization of a valid glob (notes are joined by `.` exactly where the
grammar put one). -/
structure GlobI where
  glob : String
  absGlob : String
  isNegated : Bool
  isArrayGlob : Bool
  notes : List String
deriving DecidableEq, Repr

/-- Function `Glob._inspect` (plus the constructor's `notes`): trims, validates, strips
trailing wildcards when not negated, and records the negation and array-glob
flags. -/
def inspect (glob : String) : Except NErr GlobI :=
  let g := trimS glob
  match parseValidPair g with
  | none => .error (.invalid glob)
  | some (neg, toks) =>
    let toks := if neg then toks else dropTrailingWilds toks
    let absStr := joinNotes toks
    .ok { glob := (if neg then "!" else "") ++ absStr
          absGlob := absStr
          isNegated := neg
          isArrayGlob := isArrayGlobStr absStr
          notes := toks }

/-! ## Wildcard scanning (`re.WILDCARDS`) -/

/-- Even number of occurrences of `q`: the lookahead
`(?=(?:[^"]|"[^"]*")*$)` succeeds exactly when the quotes in the remaining
suffix pair up. -/
def evenQuotes (q : Char) (cs : List Char) : Bool :=
  cs.count q % 2 == 0

/-- Regex `WILDCARDS = /(\*|\[\*\])(?=(?:[^"]|"[^"]*")*$)(?=(?:[^']|'[^']*')*$)/`
as a test: some `*` is followed by a suffix with evenly many `"` and evenly
many `'`. (A `[*]` match at a position succeeds exactly when the bare `*` one
position later does — the extra `]` in its suffix changes no quote count — so
the `\[\*\]` alternative adds nothing to the test.) -/
def hasWildcardInSuffix : List Char → Bool
  | [] => false
  | '*' :: rest =>
    (evenQuotes '"' rest && evenQuotes '\'' rest) || hasWildcardInSuffix rest
  | _ :: rest => hasWildcardInSuffix rest

/-- Test `re.WILDCARDS.test(s)`. -/
def hasWildcardStr (s : String) : Bool :=
  hasWildcardInSuffix s.data

/-- Function `Glob.hasMagic(glob)`:
`Glob.isValid(glob) && (re.WILDCARDS.test(glob) || glob[0] === '!')`. -/
def hasMagic (glob : String) : Bool :=
  isValidStr glob && (hasWildcardStr glob || headBang glob)

/-! ## `Glob.isValid` over arbitrary JavaScript values -/

/-- The JavaScript value shapes relevant to `Glob.isValid`'s
`typeof glob === 'string'` guard. -/
inductive JSVal where
  | vstr (s : String)
  | vnum (n : Int)
  | vbool (b : Bool)
  | vnull
  | vundef
  | varr
  | vobj
deriving DecidableEq

/-- Function `Glob.isValid(glob)` on any value: the `typeof` check short-circuits, so a
non-string never reaches the regex and no exception can be raised (the whole
body is a total boolean expression). -/
def isValidJS : JSVal → Bool
  | .vstr s => isValidStr s
  | _ => false

/-! ## Coverage (`Glob._covers`, `_coversNote`, `_matchesNote`) -/

/-- Helper `_coversNote(a, b)`. `none` models an `undefined` entry
(`notesB[i]` past the end); an empty string is falsy like `undefined`. For
concrete notes the source compares `utils.normalizeNote` values with `===`
(that call cannot throw on notes produced by the tokenizer, so `Option`
equality is exact there). -/
def coversNote : Option String → Option String → Bool
  | some a, some b =>
    if a == "" || b == "" then false
    else
      let bIsArr := isArrGlobNote b
      if a == "*" then !bIsArr
      else if a == "[*]" then bIsArr
      else if isWildTok b then false
      else normalizeNoteV a == normalizeNoteV b
  | _, _ => false

/-- Helper `_matchesNote(a, b)`: missing notes match
(`[2][1]` matches `[2]` and vice-versa). -/
def matchesNote : Option String → Option String → Bool
  | some a, some b =>
    if a == "" || b == "" then true
    else coversNote (some a) (some b) || coversNote (some b) (some a)
  | _, _ => true

/-- The `for` loop of `_covers` in cover mode: every note of `A` must cover
the same-position note of `B` (`coversNote _ none = false` reproduces the
failure on a shorter `B`). -/
def coversLoop : List String → List String → Bool
  | [], _ => true
  | a :: as, [] => coversNote (some a) none && coversLoop as []
  | a :: as, b :: bs => coversNote (some a) (some b) && coversLoop as bs

/-- The `for` loop of `_covers` in match mode (`matchesNote _ none = true`
lets the loop run off the shorter side successfully). -/
def matchesLoop : List String → List String → Bool
  | [], _ => true
  | a :: as, [] => matchesNote (some a) none && matchesLoop as []
  | a :: as, b :: bs => matchesNote (some a) (some b) && matchesLoop as bs

/-- Function `Glob._covers(globA, globB, match)` on already-inspected data (`_covers`
only reads the negation flag of `globA` and the two note lists). -/
def coversRaw (negA : Bool) (notesA notesB : List String) (mtch : Bool) :
    Bool :=
  if !mtch && negA && notesB.length < notesA.length then false
  else if mtch then matchesLoop notesA notesB
  else coversLoop notesA notesB

/-- Function `Glob._covers` on two inspected globs. -/
def coversG (a b : GlobI) (mtch : Bool) : Bool :=
  coversRaw a.isNegated a.notes b.notes mtch

/-- Function `Glob._covers(globA, globB)` with string arguments: each side is run
through the `Glob` constructor first (which can throw on an invalid glob;
the left-hand construction runs — and can throw — first). -/
def covers (globA globB : String) : Except NErr Bool :=
  match inspect globA with
  | .error e => .error e
  | .ok a =>
    match inspect globB with
    | .error e => .error e
    | .ok b => .ok (coversG a b false)

/-! ## Intersection (`Glob._intersect`) -/

/-- Tail of the `_intersect` loop once one side is exhausted: each remaining
note of the other side is kept (a falsy empty-string note there makes the
loop hit its final `else`, emptying the whole result). -/
def intersectRem : List String → Option (List String)
  | [] => some []
  | a :: as =>
    if a == "" then none else (intersectRem as).map (fun l => a :: l)

/-- The note-merging loop of `_intersect`, position by position up to the
longer length: equal notes are kept; a wildcard yields to the other side's
note; an exhausted side yields to the other (`intersectRem`); two different
concrete notes empty the whole intersection (`none`). Empty-string notes
cannot be produced by the tokenizer but are carried through exactly as the
source's falsiness tests would treat them. -/
def intersectNotes : List String → List String → Option (List String)
  | [], bs => intersectRem bs
  | as, [] => intersectRem as
  | a :: as, b :: bs =>
    if a == b then (intersectNotes as bs).map (fun l => a :: l)
    else if a ≠ "" && isWildTok a then
      (intersectNotes as bs).map (fun l => (if b == "" then a else b) :: l)
    else if b ≠ "" && isWildTok b then
      (intersectNotes as bs).map (fun l => (if a == "" then b else a) :: l)
    else if a ≠ "" && b == "" then
      (intersectNotes as bs).map (fun l => a :: l)
    else if a == "" && b ≠ "" then
      (intersectNotes as bs).map (fun l => b :: l)
    else none

/-- The negation bang computed by `_intersect`: in restrictive mode, either
side negated; otherwise both negated, or the side with strictly more
(normalized) notes negated. -/
def intersectBang (globA globB : String) (lenA lenB : Nat)
    (restrictive : Bool) : String :=
  if restrictive then
    if headBang globA || headBang globB then "!" else ""
  else if headBang globA && headBang globB then "!"
  else if (lenB < lenA && headBang globA) || (lenA < lenB && headBang globB)
    then "!" else ""

/-- Function `Glob._intersect(globA, globB, restrictive)`: splits both sides with
trailing-wildcard normalization, computes the bang, merges the notes and
joins. Outer `none` models the `NotationError` thrown by `split` on an
invalid glob; inner `none` is the source's `null` result. -/
def intersectG (globA globB : String) (restrictive : Bool) :
    Option (Option String) :=
  match split globA true, split globB true with
  | some notesA, some notesB =>
    let bang := intersectBang globA globB notesA.length notesB.length
      restrictive
    some (match intersectNotes notesA notesB with
      | some notesI =>
        if 0 < notesI.length then some (bang ++ joinNotes notesI) else none
      | none => none)
  | _, _ => none

/-! ## Specificity ordering (`Glob.compare`, `Glob.sort`) -/

/-- Function `_idxVal(note)`: `parseInt(note.replace(/[[\]]/, ''), 10)` — the
non-global `replace` removes only the first `[` or `]`, then `parseInt` reads
the leading digits (`'[2]'` → `'2]'` → `2`). Callers guard that the note is a
strict `[digits]` note, so the digits are present. -/
def removeFirstSqBracket : List Char → List Char
  | [] => []
  | c :: cs => if c == '[' || c == ']' then cs else c :: removeFirstSqBracket cs

/-- See `removeFirstSqBracket`. -/
def idxVal (s : String) : Nat :=
  natOfDigits ((removeFirstSqBracket s.data).takeWhile Char.isDigit)

/-- Function `_compArrIdx(lastA, lastB)`: greater index first (removal order). -/
def compArrIdx (lastA lastB : String) : Int :=
  if idxVal lastB < idxVal lastA then -1 else 1

/-- Property `Glob#parent`: the absolute glob up to but excluding the last note
(`null` when there is a single note). The source slices the string and strips
a trailing `.`; joining all but the last note yields the same string. -/
def parentOf (g : GlobI) : Option String :=
  if 1 < g.notes.length then some (joinNotes g.notes.dropLast) else none

/-- Call `_covers(parentA, parentB, true)` with string arguments: the parents of
valid globs are valid, so the constructor cannot actually throw here (an
invalid side is mapped to `false` rather than an exception). -/
def coversStrMatch (pa pb : String) : Bool :=
  match inspect pa, inspect pb with
  | .ok a, .ok b => coversG a b true
  | _, _ => false

/-- Function `_compareArrayItemGlobs(a, b)`: orders two negated, equal-depth globs
whose last notes are (different) array-bracket notes, so that higher indices
are removed first and `[*]` comes last; unrelated globs yield `0`. -/
def compareArrayItemGlobs (a b : GlobI) : Int :=
  let la := a.notes.getLastD ""
  let lb := b.notes.getLastD ""
  if !a.isNegated || !b.isNegated || a.notes.length ≠ b.notes.length
      || !isArrGlobNote la || !isArrGlobNote lb || la == lb then 0
  else if la == "[*]" then 1
  else if lb == "[*]" then -1
  else
    match parentOf a, parentOf b with
    | some pa, some pb =>
      if coversStrMatch pa pb then compArrIdx la lb else 0
    | _, _ => compArrIdx la lb

/-- Function `Glob.compare(globA, globB)`.  The wildcard "count" follows the source's
`(absGlob.match(re.WILDCARDS) || []).length`: `WILDCARDS` has no `g` flag, so
a match array is `[full, group]` of length 2 — the count is `2` when any
wildcard occurs and `0` otherwise. -/
def compareE (globA globB : String) : Except NErr Int :=
  if globA == globB || (isWildTok globA && isWildTok globB) then .ok 0
  else do
    let a ← inspect globA
    let b ← inspect globB
    if a.notes.length == b.notes.length then
      let aIdxCompare := compareArrayItemGlobs a b
      if aIdxCompare ≠ 0 then pure aIdxCompare
      else
        let wildCountA : Nat := if hasWildcardStr a.absGlob then 2 else 0
        let wildCountB : Nat := if hasWildcardStr b.absGlob then 2 else 0
        if wildCountA == wildCountB then
          if !a.isNegated && b.isNegated then pure (-1)
          else if a.isNegated && !b.isNegated then pure 1
          else if strLtB a.absGlob.data b.absGlob.data then pure (-1)
          else if strLtB b.absGlob.data a.absGlob.data then pure 1
          else pure 0
        else if wildCountB < wildCountA then pure (-1) else pure 1
    else if a.notes.length < b.notes.length then pure (-1) else pure 1

/-- Function `Glob.compare` as a total comparator for sorting: `normalize`/`sort`
apply it to already-validated globs, so the thrown-error branch is
unreachable there (mapped to `0`). -/
def compareD (globA globB : String) : Int :=
  match compareE globA globB with
  | .ok v => v
  | .error _ => 0

/-- Stable insertion for `Array.prototype.sort`: an element goes before the
first resident the comparator orders it strictly before. For a consistent
comparator this is the unique stable sorted order ECMAScript guarantees; the
comparators are consistent on every list sorted in the claims. -/
def jsInsert (cmp : String → String → Int) (x : String) :
    List String → List String
  | [] => [x]
  | y :: ys => if cmp x y < 0 then x :: y :: ys else y :: jsInsert cmp x ys

/-- JavaScript `list.sort(cmp)` (value-level; the source sorts a copy). -/
def jsSort (cmp : String → String → Int) (l : List String) : List String :=
  l.foldl (fun acc x => jsInsert cmp x acc) []

/-- Function `Glob.sort(globList)`. -/
def sortG (l : List String) : List String :=
  jsSort compareD l

/-! ## Normalization (`Glob.normalize`)

`normalize` is imperative in the source: it copies the input
(`original.concat()`), sorts the copy, inspects every item, then runs a
nested right-to-left scan over the working list with a set of flags per outer
item, collecting keepers, an `ignored` key set and an `intersections` key
map, possibly splicing duplicates out of the working list, and finally
recurses on `normalized ++ intersections` until no new intersections appear.

To settle the frame claim about the caller's array we thread the contents of
that array through every operation the source applies to it —
`utils.ensureArray` (returns the array itself), `original.concat()` (returns
a fresh copy), and `original.indexOf(..)` (a read) — each modelled by its
ECMAScript semantics. The in-place `sort`, `map` and `splice` act on the
`concat` copy and its derivatives, never on the caller's array. -/

/-- Function `utils.ensureArray(o)` for an array argument: returns the same array. -/
def jsEnsureArray (arrSt : List String) : List String × List String :=
  (arrSt, arrSt)

/-- Call `original.concat()`: fresh shallow copy; the receiver is untouched. -/
def jsConcatCopy (arrSt : List String) : List String × List String :=
  (arrSt, arrSt)

/-- Call `original.indexOf(x) >= 0`: a read of the receiver. -/
def jsIndexOfMem (arrSt : List String) (x : String) : Bool × List String :=
  (arrSt.contains x, arrSt)

/-- Comparator `_negFirstSort`'s regex `/^\s*!/`. -/
def negTest (s : String) : Bool :=
  (s.data.dropWhile isWS).head? == some '!'

/-- Comparator `_negFirstSort(a, b)`: negated items first; among negated items shorter
strings first (`a.length >= b.length ? 1 : -1`). -/
def negFirstSort (a b : String) : Int :=
  let negA := negTest a
  let negB := negTest b
  if negA && negB then (if b.data.length ≤ a.data.length then 1 else -1)
  else if negA then -1
  else if negB then 1
  else 0

/-- Comparator `_negLastSort(a, b)`: negated items last; among negated items shorter
strings first. -/
def negLastSort (a b : String) : Int :=
  let negA := negTest a
  let negB := negTest b
  if negA && negB then (if b.data.length ≤ a.data.length then 1 else -1)
  else if negA then 1
  else if negB then -1
  else 0

/-- Helper `_isReverseOf(a, b)`. -/
def isReverseOf (a b : GlobI) : Bool :=
  a.isNegated ≠ b.isNegated && a.absGlob == b.absGlob

/-- Helper `_invert(glob)`. -/
def invert (glob : String) : String :=
  if headBang glob then String.mk glob.data.tail
  else String.mk ('!' :: glob.data)

/-- Regex `NEGATE_ALL = /^!(\*|\[\*\])$/` applied to an inspected `glob` string. -/
def negateAllTest (g : String) : Bool :=
  g == "!*" || g == "![*]"

/-- Call `list.map(_inspect)`: left to right, first throw propagates. -/
def mapInspect : List String → Except NErr (List GlobI)
  | [] => .ok []
  | g :: gs =>
    match inspect g with
    | .error e => .error e
    | .ok gi =>
      match mapInspect gs with
      | .error e => .error e
      | .ok rest => .ok (gi :: rest)

/-- The mutable locals of `normalize`'s scan: the working `list` (spliced on
duplicates), the `ignored` key set, the `normalized` keepers in push order,
the `intersections` keys in insertion order, and the `negateAll` flag. -/
structure NState where
  list : List GlobI
  ignored : List String
  normalized : List String
  inters : List String
  negateAll : Bool
deriving Repr

/-- The per-outer-item flags of `normalize`'s inner scan. -/
structure NFlags where
  duplicate : Bool := false
  hasExactNeg : Bool := false
  negCoversPos : Bool := false
  negCoveredByPos : Bool := false
  negCoveredByNeg : Bool := false
  posCoversPos : Bool := false
  posCoveredByNeg : Bool := false
  posCoveredByPos : Bool := false
deriving Repr

/-- Function `checkAddIntersection(gA, gB)`: on a non-null intersection not inverted
in the original list, record it (object keys: first insertion wins). The
source also tests `list.indexOf(inter) >= 0`, but `list` holds inspection
objects, so searching it for the string `inter` with strict equality is
constantly false. -/
def checkAddIntersection (restrictive : Bool) (gA gB : String)
    (st : NState) (arrSt : List String) : NState × List String :=
  match intersectG gA gB restrictive with
  | some (some inter) =>
    let q :=
      if restrictive then (false, arrSt) else jsIndexOfMem arrSt (invert inter)
    let hasInverted := q.1
    let arrSt := q.2
    if hasInverted then (st, arrSt)
    else if st.inters.contains inter then (st, arrSt)
    else ({ st with inters := st.inters ++ [inter] }, arrSt)
  | _ => (st, arrSt)

/-- Assignment `ignored[g] = true` (object-key insertion: first insertion wins). -/
def addIgnored (st : NState) (g : String) : NState :=
  { st with ignored :=
      if st.ignored.contains g then st.ignored else st.ignored ++ [g] }

/-- The inner-loop body's branch for a negated outer item `a` against a
non-ignored `b` (flags for coverage, or a candidate intersection when
neither covers the other); `.inr` breaks the inner loop. -/
def stepNegated (restrictive : Bool) (a b : GlobI) (st : NState)
    (fl : NFlags) (arrSt : List String) (coversB coveredByB : Bool) :
    (NState × NFlags × List String) ⊕ (NState × NFlags × List String) :=
  if b.isNegated then
    if coveredByB then
      .inr (addIgnored st a.glob, { fl with negCoveredByNeg := true }, arrSt)
    else .inl (st, fl, arrSt)
  else
    let fl := { fl with
      negCoversPos := fl.negCoversPos || coversB,
      negCoveredByPos := fl.negCoveredByPos || coveredByB }
    let q :=
      if !coversB && !coveredByB then
        checkAddIntersection restrictive a.glob b.glob st arrSt
      else (st, arrSt)
    .inl (q.1, fl, q.2)

/-- The inner-loop body's branch for a non-negated outer item `a` against a
non-ignored `b`. -/
def stepPositive (restrictive : Bool) (a b : GlobI) (st : NState)
    (fl : NFlags) (arrSt : List String) (coversB coveredByB : Bool) :
    (NState × NFlags × List String) ⊕ (NState × NFlags × List String) :=
  if b.isNegated then
    if coveredByB then
      let fl := { fl with posCoveredByNeg := true }
      if restrictive then .inr (addIgnored st a.glob, fl, arrSt)
      else .inl (st, fl, arrSt)
    else
      let q :=
        if !coversB && !coveredByB then
          checkAddIntersection restrictive a.glob b.glob st arrSt
        else (st, arrSt)
      .inl (q.1, fl, q.2)
  else
    let fl := { fl with posCoversPos := fl.posCoversPos || coversB }
    if coveredByB then
      let fl := { fl with posCoveredByPos := true }
      if restrictive then .inr (st, fl, arrSt)
      else .inl (st, fl, arrSt)
    else .inl (st, fl, arrSt)

/-- One iteration of `normalize`'s inner `eachRight` body for outer item `a`
at `indexA` against `b` at `indexB`: `.inl` continues with the next `b`
(the JS callback's `return`), `.inr` breaks out of the inner loop (`return
false`), and `.error` is the thrown integrity error when object- and
array-root globs are mixed. -/
def innerStep (restrictive : Bool) (a : GlobI) (indexA indexB : Nat)
    (b : GlobI) (st : NState) (fl : NFlags) (arrSt : List String) :
    Except NErr ((NState × NFlags × List String)
      ⊕ (NState × NFlags × List String)) :=
  if indexA == indexB then .ok (.inl (st, fl, arrSt))
  else if a.isArrayGlob ≠ b.isArrayGlob then .error .integrity
  else if a.glob == b.glob then
    -- duplicate: splice `a` out of the working list and break
    .ok (.inr ({ st with list := st.list.eraseIdx indexA },
      { fl with duplicate := true }, arrSt))
  else if !a.isNegated && isReverseOf a b then
    .ok (.inr (addIgnored st a.glob,
      { fl with hasExactNeg := true }, arrSt))
  else if st.ignored.contains b.glob then .ok (.inl (st, fl, arrSt))
  else
    let coversB := coversG a b false
    let coveredByB := if coversB then false else coversG b a false
    .ok (if a.isNegated then
      stepNegated restrictive a b st fl arrSt coversB coveredByB
    else stepPositive restrictive a b st fl arrSt coversB coveredByB)

/-- One run of `normalize`'s inner `eachRight` for the outer item `a` at
`indexA`, over the indexed working list in right-to-left order: iterates
`innerStep` until it breaks, errors, or the list is exhausted. -/
def innerLoop (restrictive : Bool) (a : GlobI) (indexA : Nat) :
    List (Nat × GlobI) → NState → NFlags → List String →
    Except NErr (NState × NFlags × List String)
  | [], st, fl, arrSt => .ok (st, fl, arrSt)
  | (indexB, b) :: rest, st, fl, arrSt =>
    match innerStep restrictive a indexA indexB b st fl arrSt with
    | .error e => .error e
    | .ok (.inr out) => .ok out
    | .ok (.inl next) =>
      innerLoop restrictive a indexA rest next.1 next.2.1 next.2.2

/-- The keep/ignore decision at the end of each outer iteration: `keepNeg` /
`keepPos` / `keep` exactly as computed from the inner-loop flags, pushing the
keeper onto `normalized` or marking the glob ignored. -/
def outerKeep (restrictive : Bool) (a : GlobI) (fl : NFlags) (st : NState) :
    NState :=
  let keepNeg :=
    if restrictive then
      (fl.negCoversPos || fl.negCoveredByPos) && !fl.negCoveredByNeg
    else fl.negCoveredByPos && !fl.negCoveredByNeg
  let keepPos :=
    if restrictive then
      (fl.posCoversPos || !fl.posCoveredByPos) && !fl.posCoveredByNeg
    else fl.posCoveredByNeg || !fl.posCoveredByPos
  let keep := !fl.duplicate && !fl.hasExactNeg
    && (if a.isNegated then keepNeg else keepPos)
  if keep then { st with normalized := st.normalized ++ [a.glob] }
  else addIgnored st a.glob

/-- The inner loop followed by the keep/ignore decision (the part of an
outer iteration after the negate-all check). -/
def outerRun (restrictive : Bool) (a : GlobI) (i : Nat) (st : NState)
    (arrSt : List String) :
    Except NErr ((NState × List String) ⊕ (NState × List String)) :=
  match innerLoop restrictive a i (st.list.enum.reverse) st {} arrSt with
  | .error e => .error e
  | .ok (st, fl, arrSt) =>
    .ok (.inl (outerKeep restrictive a fl st, arrSt))

/-- One outer iteration for the item `a` at index `i`: flags a negate-all
(breaking the whole loop via `.inr` when restrictive), runs the inner loop,
and applies the keep/ignore decision. -/
def outerStep (restrictive : Bool) (a : GlobI) (i : Nat) (st : NState)
    (arrSt : List String) :
    Except NErr ((NState × List String) ⊕ (NState × List String)) :=
  let st := if negateAllTest a.glob then { st with negateAll := true }
    else st
  if negateAllTest a.glob && restrictive then .ok (.inr (st, arrSt))
  else outerRun restrictive a i st arrSt

/-- The outer `eachRight` of `normalize`: indices count down from the initial
working-list length (splices only remove the current index, so lower indices
stay valid). A restrictive negate-all breaks out of the whole loop
(`.inr`). -/
def outerLoop (restrictive : Bool) :
    Nat → NState → List String → Except NErr (NState × List String)
  | 0, st, arrSt => .ok (st, arrSt)
  | i + 1, st, arrSt =>
    match st.list.get? i with
    | none => outerLoop restrictive i st arrSt -- unreachable: i < list length
    | some a =>
      match outerStep restrictive a i st arrSt with
      | .error e => .error e
      | .ok (.inr out) => .ok out
      | .ok (.inl next) => outerLoop restrictive i next.1 next.2

/-- Function `Glob.normalize(globList, restrictive)` with explicit recursion fuel (the
source recurses whenever a pass produced new intersections) and the threaded
contents of the caller's array as second component of the result. -/
def normalizeCore :
    Nat → List String → Bool → Except NErr (List String) × List String
  | 0, arrSt, _ => (.error .fuelOut, arrSt)
  | fuel + 1, arrSt, restrictive =>
    let original := (jsEnsureArray arrSt).1
    let arrSt := (jsEnsureArray arrSt).2
    if original.length == 0 then (.ok [], arrSt)
    else
      let copy := (jsConcatCopy arrSt).1
      let arrSt := (jsConcatCopy arrSt).2
      let sorted :=
        jsSort (if restrictive then negFirstSort else negLastSort) copy
      match mapInspect sorted with
      | .error e => (.error e, arrSt)
      | .ok list =>
        match list with
        | [g] => if g.isNegated then (.ok [], arrSt) else (.ok [g.glob], arrSt)
        | _ =>
          match outerLoop restrictive list.length
              ⟨list, [], [], [], false⟩ arrSt with
          | .error e => (.error e, arrSt)
          | .ok (st, arrSt) =>
            if restrictive && st.negateAll then (.ok [], arrSt)
            else if 0 < st.inters.length then
              -- re-normalize the fresh `normalized.concat(intersections)`
              -- array; the caller's array is not passed down
              ((normalizeCore fuel (st.normalized ++ st.inters)
                restrictive).1, arrSt)
            else (.ok (sortG st.normalized), arrSt)

/-- Default fuel: ample for the fixed-point recursion on the list sizes the
engine is designed for (each round must produce a new intersection key). -/
def normFuel : Nat := 64

/-- Function `Glob.normalize(globList, restrictive)`. -/
def normalizeG (globList : List String) (restrictive : Bool) :
    Except NErr (List String) :=
  (normalizeCore normFuel globList restrictive).1

/-! ## Shape of tokenizer output

Every note the tokenizer yields is a nonempty string starting with `*`, `[`
or an identifier-start character — in particular never with `!`. -/

/-- Head shape of a note token. -/
def tokHeadOK (t : String) : Bool :=
  match t.data with
  | [] => false
  | c :: _ => c == '*' || c == '[' || isVarStart c

theorem tokHeadOK_ne_empty {t : String} (h : tokHeadOK t = true) : t ≠ "" := by
  intro he
  subst he
  simp [tokHeadOK] at h

theorem tokHeadOK_not_bang {t : String} (h : tokHeadOK t = true) :
    t.data.head? ≠ some '!' := by
  unfold tokHeadOK at h
  match hd : t.data with
  | [] => simp [hd] at h
  | c :: cs =>
    rw [hd] at h
    simp only [List.head?]
    intro hc
    rw [Option.some.injEq] at hc
    subst hc
    simp [isVarStart] at h

theorem parseBracket_head {cs : List Char} {p : List Char × List Char}
    (h : p ∈ parseBracket cs) : ∃ r, p.1 = '[' :: r := by
  rw [parseBracket.eq_def] at h
  split at h
  · simp at h
  · split at h
    · split at h
      · simp at h
        exact ⟨_, by rw [h]⟩
      · simp at h
    · split at h
      · split at h
        · simp at h
          exact ⟨_, by rw [h]⟩
        · simp at h
      · split at h
        · rw [List.mem_reverse] at h
          obtain ⟨q, _, hq⟩ := List.mem_map.1 h
          exact ⟨_, by rw [← hq]⟩
        · simp at h

theorem parseRest_tokens :
    ∀ (fuel : Nat) (cs : List Char) (toks : List String),
      parseRest fuel cs = some toks → ∀ t ∈ toks, tokHeadOK t = true := by
  intro fuel
  induction fuel with
  | zero =>
    intro cs toks h t ht
    simp only [parseRest] at h
    split at h
    · rw [Option.some.injEq] at h
      subst h
      simp at ht
    · exact absurd h (by simp)
  | succ n ih =>
    intro cs toks h t ht
    simp only [parseRest] at h
    split at h
    · rw [Option.some.injEq] at h
      subst h
      simp at ht
    · split at h
      · exact absurd h (by simp)
      · split at h
        · rw [Option.map_eq_some'] at h
          obtain ⟨ts, hts, rfl⟩ := h
          rcases List.mem_cons.1 ht with rfl | hmem
          · rfl
          · exact ih _ ts hts t hmem
        · split at h
          · rw [Option.map_eq_some'] at h
            obtain ⟨ts, hts, rfl⟩ := h
            rcases List.mem_cons.1 ht with rfl | hmem
            · rename_i c cs'' _ hc
              show tokHeadOK ⟨c :: (takeVar cs'').1⟩ = true
              simp [tokHeadOK, hc]
            · exact ih _ ts hts t hmem
          · exact absurd h (by simp)
    · obtain ⟨p, hp, hfp⟩ := List.exists_of_findSome?_eq_some h
      rw [Option.map_eq_some'] at hfp
      obtain ⟨ts, hts, rfl⟩ := hfp
      rcases List.mem_cons.1 ht with rfl | hmem
      · obtain ⟨r, hr⟩ := parseBracket_head hp
        show tokHeadOK ⟨p.1⟩ = true
        simp [tokHeadOK, hr]
      · exact ih _ ts hts t hmem
    · exact absurd h (by simp)

theorem parseGlobTokens_tokens {cs : List Char} {toks : List String}
    (h : parseGlobTokens cs = some toks) : ∀ t ∈ toks, tokHeadOK t = true := by
  intro t ht
  rw [parseGlobTokens.eq_def] at h
  split at h
  · exact absurd h (by simp)
  · rw [Option.map_eq_some'] at h
    obtain ⟨ts, hts, rfl⟩ := h
    rcases List.mem_cons.1 ht with rfl | hmem
    · rfl
    · exact parseRest_tokens _ _ ts hts t hmem
  · obtain ⟨p, hp, hfp⟩ := List.exists_of_findSome?_eq_some h
    rw [Option.map_eq_some'] at hfp
    obtain ⟨ts, hts, rfl⟩ := hfp
    rcases List.mem_cons.1 ht with rfl | hmem
    · obtain ⟨r, hr⟩ := parseBracket_head hp
      show tokHeadOK ⟨p.1⟩ = true
      simp [tokHeadOK, hr]
    · exact parseRest_tokens _ _ ts hts t hmem
  · rename_i c cs' _ _
    split at h
    · rw [Option.map_eq_some'] at h
      obtain ⟨ts, hts, rfl⟩ := h
      rcases List.mem_cons.1 ht with rfl | hmem
      · rename_i hc
        show tokHeadOK ⟨c :: (takeVar cs').1⟩ = true
        simp [tokHeadOK, hc]
      · exact parseRest_tokens _ _ ts hts t hmem
    · exact absurd h (by simp)

theorem parseValidPair_tokens {s : String} {neg : Bool} {toks : List String}
    (h : parseValidPair s = some (neg, toks)) :
    ∀ t ∈ toks, tokHeadOK t = true := by
  unfold parseValidPair at h
  split at h
  · rw [Option.map_eq_some'] at h
    obtain ⟨ts, hts, heq⟩ := h
    cases heq
    exact parseGlobTokens_tokens hts
  · rw [Option.map_eq_some'] at h
    obtain ⟨ts, hts, heq⟩ := h
    cases heq
    exact parseGlobTokens_tokens hts

theorem mem_dropTrailingWilds {l : List String} {t : String}
    (h : t ∈ dropTrailingWilds l) : t ∈ l := by
  unfold dropTrailingWilds at h
  match l with
  | [] => exact h
  | f :: rest =>
    rcases List.mem_cons.1 h with rfl | hmem
    · exact List.mem_cons_self _ _
    · rw [List.mem_reverse] at hmem
      have := (List.dropWhile_sublist isWildTok).mem hmem
      rw [List.mem_reverse] at this
      exact List.mem_cons_of_mem _ this

theorem split_tokens {g : String} {n : Bool} {toks : List String}
    (h : split g n = some toks) : ∀ t ∈ toks, tokHeadOK t = true := by
  unfold split at h
  split at h
  · exact absurd h (by simp)
  · rename_i neg toks' heq
    rw [Option.some.injEq] at h
    subst h
    intro t ht
    split at ht
    · exact parseValidPair_tokens heq t (mem_dropTrailingWilds ht)
    · exact parseValidPair_tokens heq t ht

theorem inspect_tokens {s : String} {g : GlobI} (h : inspect s = .ok g) :
    ∀ t ∈ g.notes, tokHeadOK t = true := by
  simp only [inspect] at h
  split at h
  · exact absurd h (by simp)
  · rename_i neg toks' heq
    rw [Except.ok.injEq] at h
    subst h
    intro t ht
    simp only at ht
    split at ht
    · exact parseValidPair_tokens heq t ht
    · exact parseValidPair_tokens heq t (mem_dropTrailingWilds ht)

/-! ## Algebra of `_coversNote` -/

theorem coversNote_refl {t : String} (h : t ≠ "") :
    coversNote (some t) (some t) = true := by
  by_cases h1 : t = "*"
  · subst h1; rfl
  by_cases h2 : t = "[*]"
  · subst h2; rfl
  simp [coversNote, isWildTok, h, h1, h2]

theorem coversNote_ne_empty {a b : String}
    (h : coversNote (some a) (some b) = true) : a ≠ "" ∧ b ≠ "" := by
  constructor <;> intro he <;> subst he <;> simp [coversNote] at h

theorem arrayNoteIdx_head {t : String} {n : Nat}
    (h : arrayNoteIdx t = some n) : ∃ r, t.data = '[' :: r := by
  unfold arrayNoteIdx at h
  split at h
  · rename_i r heq
    exact ⟨r, heq⟩
  · exact absurd h (by simp)

theorem normNum_isArr {t : String} {n : Nat}
    (h : normalizeNoteV t = some (.num n)) : isArrGlobNote t = true := by
  unfold normalizeNoteV at h
  split at h
  · exact absurd h (by simp)
  · split at h
    · rename_i m hm
      simp [isArrGlobNote, hm]
    · split at h
      · split at h <;> exact absurd h (by simp)
      · exact absurd h (by simp)

theorem isArr_norm {t : String} (h : isArrGlobNote t = true) :
    t = "[*]" ∨ ∃ n, normalizeNoteV t = some (.num n) := by
  unfold isArrGlobNote at h
  rcases Bool.or_eq_true_iff.1 h with h1 | h2
  · right
    obtain ⟨n, hn⟩ := Option.isSome_iff_exists.1 h1
    refine ⟨n, ?_⟩
    have hvar : isVarTok t = false := by
      obtain ⟨r, hr⟩ := arrayNoteIdx_head hn
      simp [isVarTok, hr, isVarStart]
    simp [normalizeNoteV, hvar, hn]
  · left
    exact eq_of_beq h2

theorem coversNote_trans {a b c : String}
    (hab : coversNote (some a) (some b) = true)
    (hbc : coversNote (some b) (some c) = true) :
    coversNote (some a) (some c) = true := by
  obtain ⟨ha, hb⟩ := coversNote_ne_empty hab
  obtain ⟨_, hc⟩ := coversNote_ne_empty hbc
  by_cases ha1 : a = "*"
  · -- `*` covers any non-array note; show `c` is not an array note
    subst ha1
    have hbarr : isArrGlobNote b = false := by
      simpa [coversNote, hb] using hab
    suffices hgoal : isArrGlobNote c = false by
      simpa [coversNote, hc] using hgoal
    by_contra hcarr
    rw [Bool.not_eq_false] at hcarr
    by_cases hb1 : b = "*"
    · subst hb1
      have : isArrGlobNote c = false := by simpa [coversNote, hc] using hbc
      simp [this] at hcarr
    by_cases hb2 : b = "[*]"
    · subst hb2
      exact absurd hbarr (by decide)
    · have hcw : isWildTok c = false ∧ normalizeNoteV b == normalizeNoteV c :=
        by simpa [coversNote, hb, hc, hb1, hb2, isWildTok] using hbc
      rcases isArr_norm hcarr with rfl | ⟨n, hn⟩
      · simp [isWildTok] at hcw
      · have : normalizeNoteV b = some (.num n) := by
          have hbeq := hcw.2
          rw [hn] at hbeq
          exact eq_of_beq hbeq
        simp [normNum_isArr this] at hbarr
  by_cases ha2 : a = "[*]"
  · -- `[*]` covers array notes; show `c` is an array note
    subst ha2
    have hbarr : isArrGlobNote b = true := by
      simpa [coversNote, hb] using hab
    suffices hgoal : isArrGlobNote c = true by
      simpa [coversNote, hc] using hgoal
    by_cases hb2 : b = "[*]"
    · subst hb2
      simpa [coversNote, hc] using hbc
    by_cases hb1 : b = "*"
    · subst hb1
      exact absurd hbarr (by decide)
    · have hcw : isWildTok c = false ∧ normalizeNoteV b == normalizeNoteV c :=
        by simpa [coversNote, hb, hc, hb1, hb2, isWildTok] using hbc
      rcases isArr_norm hbarr with rfl | ⟨n, hn⟩
      · exact absurd rfl hb2
      · have : normalizeNoteV c = some (.num n) := by
          have hbeq := hcw.2
          rw [hn] at hbeq
          exact (eq_of_beq hbeq).symm
        exact normNum_isArr this
  · -- concrete `a`: `===`-equality of normalized notes composes
    have hab' : isWildTok b = false ∧ normalizeNoteV a == normalizeNoteV b :=
      by simpa [coversNote, ha, hb, ha1, ha2, isWildTok] using hab
    have hb1 : b ≠ "*" := by
      intro he; subst he; simp [isWildTok] at hab'
    have hb2 : b ≠ "[*]" := by
      intro he; subst he; simp [isWildTok] at hab'
    have hbc' : isWildTok c = false ∧ normalizeNoteV b == normalizeNoteV c :=
      by simpa [coversNote, hb, hc, hb1, hb2, isWildTok] using hbc
    have hc1 : c ≠ "*" := by
      intro he; subst he; simp [isWildTok] at hbc'
    have hc2 : c ≠ "[*]" := by
      intro he; subst he; simp [isWildTok] at hbc'
    have hac : normalizeNoteV a == normalizeNoteV c := by
      rw [eq_of_beq hab'.2]
      exact hbc'.2
    simp [coversNote, ha, hc, ha1, ha2, hc1, hc2, isWildTok, hac]

theorem coversLoop_refl {ns : List String} (h : ∀ t ∈ ns, t ≠ "") :
    coversLoop ns ns = true := by
  induction ns with
  | nil => rfl
  | cons a as ih =>
    simp only [coversLoop, Bool.and_eq_true]
    refine ⟨coversNote_refl (h a (List.mem_cons_self a as)), ?_⟩
    exact ih (fun t ht => h t (List.mem_cons_of_mem a ht))

theorem coversLoop_trans (as : List String) : ∀ (bs cs : List String),
    coversLoop as bs = true → coversLoop bs cs = true →
    coversLoop as cs = true := by
  induction as with
  | nil =>
    intro bs cs _ _
    rfl
  | cons a as ih =>
    intro bs cs hab hbc
    match bs with
    | [] => simp [coversLoop, coversNote] at hab
    | b :: bs' =>
      match cs with
      | [] => simp [coversLoop, coversNote] at hbc
      | c :: cs' =>
        simp only [coversLoop, Bool.and_eq_true] at hab hbc ⊢
        exact ⟨coversNote_trans hab.1 hbc.1, ih bs' cs' hab.2 hbc.2⟩

theorem inspect_notes_ne_empty {s : String} {g : GlobI}
    (h : inspect s = .ok g) : ∀ t ∈ g.notes, t ≠ "" :=
  fun t ht => tokHeadOK_ne_empty (inspect_tokens h t ht)

/-! ## Claim theorems -/

/-- Claim C2.  `covers` is reflexive on every valid pattern, and transitive
on non-negated valid patterns: a wildcard `*`/`[*]` note covers itself, a
concrete note covers itself through `normalizeNote` equality, and the
per-position cover relation composes (pattern validity comes in as success of
the `Glob` constructor's inspection). -/
theorem covers_refl_and_trans :
    (∀ (s : String) (g : GlobI), inspect s = .ok g → covers s s = .ok true)
    ∧ (∀ (a b c : String) (ga gb gc : GlobI),
        inspect a = .ok ga → inspect b = .ok gb → inspect c = .ok gc →
        ga.isNegated = false → gb.isNegated = false → gc.isNegated = false →
        covers a b = .ok true → covers b c = .ok true →
        covers a c = .ok true) := by
  constructor
  · intro s g hg
    have hne := inspect_notes_ne_empty hg
    simp only [covers, hg, Except.ok.injEq]
    simp [coversG, coversRaw, coversLoop_refl hne]
  · intro a b c ga gb gc ha hb hc hna hnb _ hab hbc
    simp only [covers, ha, hb, hc, Except.ok.injEq] at hab hbc ⊢
    simp only [coversG, coversRaw, hna, hnb] at hab hbc ⊢
    simp only [Bool.not_false, Bool.false_and, Bool.true_and,
      Bool.and_false, Bool.false_eq_true, if_false] at hab hbc ⊢
    exact coversLoop_trans ga.notes gb.notes gc.notes hab hbc

/-- Claim C4.  A negated pattern with strictly more notes than another
pattern never covers it: `_covers` returns `false` up front in that case,
regardless of the per-position notes; in particular
`covers('!x.*.*', '!x.*')` is false. -/
theorem covers_negated_deeper_false :
    (∀ (a b : String) (ga gb : GlobI),
      inspect a = .ok ga → inspect b = .ok gb → ga.isNegated = true →
      gb.notes.length < ga.notes.length → covers a b = .ok false)
    ∧ covers "!x.*.*" "!x.*" = .ok false := by
  constructor
  · intro a b ga gb ha hb hneg hlen
    simp [covers, ha, hb, coversG, coversRaw, hneg, hlen]
  · rfl

/-- Witness for C2 at concrete patterns: reflexivity at `x.y` and
transitivity along `*` covers `x.y` covers `x.y.z`. -/
theorem covers_refl_and_trans_witness :
    covers "x.y" "x.y" = .ok true ∧ covers "*" "x.y.z" = .ok true :=
  ⟨covers_refl_and_trans.1 "x.y" ⟨"x.y", "x.y", false, false, ["x", "y"]⟩
     (by rfl),
   covers_refl_and_trans.2 "*" "x.y" "x.y.z"
     ⟨"*", "*", false, false, ["*"]⟩
     ⟨"x.y", "x.y", false, false, ["x", "y"]⟩
     ⟨"x.y.z", "x.y.z", false, false, ["x", "y", "z"]⟩
     (by rfl) (by rfl) (by rfl) rfl rfl rfl (by rfl) (by rfl)⟩

/-- Witness for C4 at a concrete pair: negated `!a[*].b` (three notes) does
not cover `!a[*]` (two notes). -/
theorem covers_negated_deeper_false_witness :
    covers "!a[*].b" "!a[*]" = .ok false :=
  covers_negated_deeper_false.1 "!a[*].b" "!a[*]"
    ⟨"!a[*].b", "a[*].b", true, false, ["a", "[*]", "b"]⟩
    ⟨"!a[*]", "a[*]", true, false, ["a", "[*]"]⟩
    (by rfl) (by rfl) rfl (by decide)

/-! ## Lemmas for the intersection negation rule -/

theorem intersectRem_mem {l r : List String} (h : intersectRem l = some r) :
    ∀ t ∈ r, t ∈ l := by
  induction l generalizing r with
  | nil =>
    simp only [intersectRem, Option.some.injEq] at h
    subst h
    simp
  | cons a as ih =>
    simp only [intersectRem] at h
    split at h
    · exact absurd h (by simp)
    · rw [Option.map_eq_some'] at h
      obtain ⟨l', hl', rfl⟩ := h
      intro t ht
      rcases List.mem_cons.1 ht with rfl | hmem
      · exact List.mem_cons_self _ _
      · exact List.mem_cons_of_mem _ (ih hl' t hmem)

theorem intersectNotes_mem (as : List String) : ∀ (bs l : List String),
    intersectNotes as bs = some l → ∀ t ∈ l, t ∈ as ∨ t ∈ bs := by
  induction as with
  | nil =>
    intro bs l h t ht
    match bs with
    | [] =>
      simp only [intersectNotes, intersectRem, Option.some.injEq] at h
      subst h
      simp at ht
    | b :: bs' =>
      right
      exact intersectRem_mem h t ht
  | cons a as ih =>
    intro bs l h t ht
    match bs with
    | [] =>
      rcases intersectRem_mem h t ht with hmem
      exact Or.inl hmem
    | b :: bs' =>
      simp only [intersectNotes] at h
      have step :
          ∀ (x : String) (l' : List String),
            (x = a ∨ x = b) → intersectNotes as bs' = some l' → t ∈ x :: l' →
            t ∈ a :: as ∨ t ∈ b :: bs' := by
        intro x l' hx hl' htm
        rcases List.mem_cons.1 htm with rfl | hmem
        · rcases hx with rfl | rfl
          · exact Or.inl (List.mem_cons_self _ _)
          · exact Or.inr (List.mem_cons_self _ _)
        · rcases ih bs' l' hl' t hmem with hA | hB
          · exact Or.inl (List.mem_cons_of_mem _ hA)
          · exact Or.inr (List.mem_cons_of_mem _ hB)
      split at h
      · rw [Option.map_eq_some'] at h
        obtain ⟨l', hl', rfl⟩ := h
        exact step a l' (Or.inl rfl) hl' ht
      · split at h
        · rw [Option.map_eq_some'] at h
          obtain ⟨l', hl', rfl⟩ := h
          split at ht
          · exact step a l' (Or.inl rfl) hl' ht
          · exact step b l' (Or.inr rfl) hl' ht
        · split at h
          · rw [Option.map_eq_some'] at h
            obtain ⟨l', hl', rfl⟩ := h
            split at ht
            · exact step b l' (Or.inr rfl) hl' ht
            · exact step a l' (Or.inl rfl) hl' ht
          · split at h
            · rw [Option.map_eq_some'] at h
              obtain ⟨l', hl', rfl⟩ := h
              exact step a l' (Or.inl rfl) hl' ht
            · split at h
              · rw [Option.map_eq_some'] at h
                obtain ⟨l', hl', rfl⟩ := h
                exact step b l' (Or.inr rfl) hl' ht
              · exact absurd h (by simp)

theorem joinNotes_head {l : List String}
    (htoks : ∀ t ∈ l, tokHeadOK t = true) (hne : l ≠ []) :
    ∃ c r, (joinNotes l).data = c :: r
      ∧ (c == '*' || c == '[' || isVarStart c) = true := by
  induction l with
  | nil => exact absurd rfl hne
  | cons t rest ih =>
    have htok := htoks t (List.mem_cons_self _ _)
    have htne : t ≠ "" := tokHeadOK_ne_empty htok
    obtain ⟨c, r, hdata, hc⟩ : ∃ c r, t.data = c :: r
        ∧ (c == '*' || c == '[' || isVarStart c) = true := by
      unfold tokHeadOK at htok
      match hd : t.data with
      | [] => rw [hd] at htok; simp at htok
      | c :: r => rw [hd] at htok; exact ⟨c, r, rfl, htok⟩
    match rest with
    | [] =>
      refine ⟨c, r, ?_, hc⟩
      simp only [joinNotes]
      rw [if_neg (by simpa using htne)]
      exact hdata
    | u :: rest' =>
      have hu : u ≠ "" :=
        tokHeadOK_ne_empty (htoks u (List.mem_cons_of_mem _
          (List.mem_cons_self _ _)))
      simp only [joinNotes]
      rw [if_neg (by simpa using htne), if_neg (by simpa using hu)]
      split
      · exact ⟨c, r ++ (joinNotes (u :: rest')).data, by
          rw [String.data_append, hdata]; rfl, hc⟩
      · refine ⟨c, (r ++ ['.']) ++ (joinNotes (u :: rest')).data, ?_, hc⟩
        rw [String.data_append, String.data_append, hdata]
        rfl

theorem headBang_bang_append (s : String) : headBang ("!" ++ s) = true := by
  simp [headBang, String.data_append]

theorem intersectBang_cases (a b : String) (la lb : Nat) (r : Bool) :
    intersectBang a b la lb r =
      (if (if r then headBang a || headBang b
           else (headBang a && headBang b)
             || (decide (lb < la) && headBang a)
             || (decide (la < lb) && headBang b)) = true
       then "!" else "") := by
  unfold intersectBang
  cases r
  · simp only [if_false, Bool.false_eq_true, Bool.if_false_left]
    by_cases hab : (headBang a && headBang b) = true
    · simp [hab]
    · rw [Bool.not_eq_true] at hab
      simp only [hab, if_false, Bool.false_or, Bool.false_eq_true]
  · simp

/-- Claim C1 (amended).  For a non-null intersection: in restrictive mode the
result is negated iff at least one input is negated; in loose mode it is
negated iff both inputs are negated, or the side whose trailing-wildcard
normalized note sequence is strictly longer (deeper, more specific) is
negated — the negation of the deeper side propagates, not that of the
shorter one. In particular `intersect('x.*', '!*.y')` is `'!x.y'` in both
modes (after normalization `x.*` has one note, `!*.y` two). -/
theorem intersect_negation_rule :
    (∀ (globA globB : String) (r : Bool) (notesA notesB : List String)
        (res : String),
      split globA true = some notesA → split globB true = some notesB →
      intersectG globA globB r = some (some res) →
      headBang res =
        (if r then headBang globA || headBang globB
         else (headBang globA && headBang globB)
           || (decide (notesB.length < notesA.length) && headBang globA)
           || (decide (notesA.length < notesB.length) && headBang globB)))
    ∧ intersectG "x.*" "!*.y" false = some (some "!x.y")
    ∧ intersectG "x.*" "!*.y" true = some (some "!x.y") := by
  refine ⟨?_, rfl, rfl⟩
  intro globA globB r notesA notesB res hA hB h
  simp only [intersectG, hA, hB, Option.some.injEq] at h
  split at h
  · rename_i notesI hI
    split at h
    · rename_i hlen
      rw [Option.some.injEq] at h
      subst h
      have htoksI : ∀ t ∈ notesI, tokHeadOK t = true := by
        intro t ht
        rcases intersectNotes_mem notesA notesB notesI hI t ht with hm | hm
        · exact split_tokens hA t hm
        · exact split_tokens hB t hm
      have hneI : notesI ≠ [] := by
        intro he
        subst he
        simp at hlen
      obtain ⟨c, rr, hdata, hc⟩ := joinNotes_head htoksI hneI
      rw [intersectBang_cases]
      have hJ : headBang (joinNotes notesI) = false := by
        simp only [headBang, hdata, List.head?]
        rw [beq_eq_false_iff_ne]
        intro hbad
        rw [Option.some.injEq] at hbad
        subst hbad
        simp [isVarStart] at hc
      generalize (if r then headBang globA || headBang globB
         else (headBang globA && headBang globB)
           || (decide (notesB.length < notesA.length) && headBang globA)
           || (decide (notesA.length < notesB.length) && headBang globB))
        = cond
      cases cond
      · simp only [Bool.false_eq_true, if_false]
        have : ("" ++ joinNotes notesI) = joinNotes notesI := by
          have hd : ("" ++ joinNotes notesI).data = (joinNotes notesI).data :=
            by rw [String.data_append]; rfl
          exact congrArg String.mk hd
        rw [this, hJ]
      · simp only [if_true]
        exact headBang_bang_append _
    · exact absurd h (by simp)
  · exact absurd h (by simp)

/-- Counterexample to C1 as stated: in loose mode
`intersect('x.*', '!*.y')` returns `'!x.y'`, not the claimed `'x.y'` (the
negated side has more normalized notes, so its negation propagates). -/
theorem intersect_negation_rule_counterexample :
    intersectG "x.*" "!*.y" false = some (some "!x.y")
    ∧ some (some "!x.y") ≠ some (some "x.y") := by
  refine ⟨rfl, ?_⟩
  intro h
  rw [Option.some.injEq, Option.some.injEq] at h
  exact absurd h (by decide)

/-- Witness for C1's negation rule at
`intersect('x.*', '!*.y', false) = '!x.y'`: the split lengths are 1 and 2
and only the longer side is negated, so the result's bang is set. -/
theorem intersect_negation_rule_witness :
    headBang "!x.y" =
      (if false then headBang "x.*" || headBang "!*.y"
       else (headBang "x.*" && headBang "!*.y")
         || (decide ((["*", "y"] : List String).length
              < (["x"] : List String).length) && headBang "x.*")
         || (decide ((["x"] : List String).length
              < (["*", "y"] : List String).length) && headBang "!*.y")) :=
  intersect_negation_rule.1 "x.*" "!*.y" false ["x"] ["*", "y"] "!x.y"
    rfl rfl rfl

/-- Counterexample to C5 as stated: `x.*` is a valid, non-negated pattern
whose only wildcard note is the final one, yet `hasMagic('x.*')` is true —
the source tests `re.WILDCARDS` against the whole raw string, trailing
wildcard included. -/
theorem hasMagic_counterexample :
    hasMagic "x.*" = true
    ∧ headBang "x.*" = false
    ∧ split "x.*" false = some ["x", "*"]
    ∧ (["x", "*"].dropLast.all (fun t => !isWildTok t)) = true :=
  ⟨rfl, rfl, rfl, rfl⟩

/-- Claim C5 (amended).  `hasMagic(raw)` is true iff `raw` is a valid glob
and (`raw` is negated OR `raw` contains a `*` wildcard outside quoted
bracket keys — in any position, including as the final note).  A quoted star
such as in `x["*"]` is not magic. -/
theorem hasMagic_rule :
    (∀ raw : String, hasMagic raw =
      (isValidStr raw && (headBang raw || hasWildcardStr raw)))
    ∧ hasMagic "x.*" = true
    ∧ hasMagic "x.y" = false
    ∧ hasMagic "!x" = true
    ∧ hasMagic "x[\"*\"]" = false := by
  refine ⟨?_, rfl, rfl, rfl, rfl⟩
  intro raw
  unfold hasMagic
  rw [Bool.or_comm]

/-- Claim C6.  The restrictive vs loose divergence on
`['*', 'car.model', '!car.*']`: loose mode keeps the positive `car.model`
reaffirmed under the negation; restrictive mode removes it. -/
theorem normalize_restrictive_divergence :
    normalizeG ["*", "car.model", "!car.*"] false
      = .ok ["*", "!car.*", "car.model"]
    ∧ normalizeG ["*", "car.model", "!car.*"] true = .ok ["*", "!car.*"] :=
  ⟨rfl, rfl⟩

/-- Claim C7.  `sort` orders the negated array-slot globs so that strictly
indexed siblings come in descending index order before their `[*]`
counterpart (safe removal order). -/
theorem sort_array_removal_order :
    sortG ["![0][1]", "![0][*]", "![0][3]", "![*][2]"]
      = ["![0][3]", "![*][2]", "![0][1]", "![0][*]"] := rfl

/-- Claim C3 (code bug).  `normalize` is not idempotent.  Loose mode:
`normalize(['x','*','*'])` returns `['*','x']` — splicing the duplicate `*`
also marks the string `'*'` as ignored, so `x` is never compared against the
surviving `*` — and renormalizing the result gives `['*']`.  Restrictive
mode fails even without duplicates: in `normalize(['*','x.x','x'], true)`
the covered `x` is kept because it covers `x.x`
(`posCoversPos` overrides `posCoveredByPos` in `keepPos`), giving
`['*','x']`, which renormalizes to `['*']`. -/
theorem normalize_not_idempotent :
    normalizeG ["x", "*", "*"] false = .ok ["*", "x"]
    ∧ normalizeG ["*", "x"] false = .ok ["*"]
    ∧ normalizeG ["*", "x.x", "x"] true = .ok ["*", "x"]
    ∧ normalizeG ["*", "x"] true = .ok ["*"]
    ∧ "x" ∈ ["*", "x"] ∧ "x" ∉ ["*"] :=
  ⟨rfl, rfl, rfl, rfl, by decide, by decide⟩

/-- Claim C10.  `Glob.isValid` on any non-string value returns `false`: the
`typeof glob === 'string'` conjunct short-circuits before the regex test, and
the whole body is a total boolean expression, so no exception is possible. -/
theorem isValid_nonstring_false :
    ∀ v : JSVal, (∀ s, v ≠ JSVal.vstr s) → isValidJS v = false := by
  intro v hv
  cases v with
  | vstr s => exact absurd rfl (hv s)
  | vnum n => rfl
  | vbool b => rfl
  | vnull => rfl
  | vundef => rfl
  | varr => rfl
  | vobj => rfl

/-- Witness for C10 at `null`. -/
theorem isValid_nonstring_false_witness : isValidJS JSVal.vnull = false :=
  isValid_nonstring_false JSVal.vnull (fun _ h => JSVal.noConfusion h)

/-! ## Frame property of `normalize` (claim C9)

The caller-array contents threaded through `normalizeCore` come back
unchanged: every operation the source applies to the caller's array
(`ensureArray`, `concat`, `indexOf`) is non-mutating, and the in-place
`sort`/`splice` hit only the `concat` copy and its derivatives. -/

theorem checkAddIntersection_arr (r : Bool) (gA gB : String) (st : NState)
    (arr : List String) : (checkAddIntersection r gA gB st arr).2 = arr := by
  unfold checkAddIntersection
  split
  · simp only
    split
    · split
      · rfl
      · split
        · rfl
        · rfl
    · split
      · rfl
      · split
        · rfl
        · rfl
  · rfl

theorem ifCheckAdd_arr (c r : Bool) (gA gB : String) (st : NState)
    (arr : List String) :
    (if c = true then checkAddIntersection r gA gB st arr
     else (st, arr)).2 = arr := by
  split
  · exact checkAddIntersection_arr r gA gB st arr
  · rfl

/-- Payload array contents of an inner-loop step outcome. -/
def outArr
    (out : (NState × NFlags × List String)
      ⊕ (NState × NFlags × List String)) : List String :=
  match out with
  | .inl next => next.2.2
  | .inr brk => brk.2.2

theorem stepNegated_arr (r : Bool) (a b : GlobI) (st : NState) (fl : NFlags)
    (arr : List String) (cb cvb : Bool) :
    outArr (stepNegated r a b st fl arr cb cvb) = arr := by
  unfold stepNegated
  split
  · split
    · rfl
    · rfl
  · simp only [outArr]
    exact ifCheckAdd_arr _ r a.glob b.glob st arr

theorem stepPositive_arr (r : Bool) (a b : GlobI) (st : NState)
    (fl : NFlags) (arr : List String) (cb cvb : Bool) :
    outArr (stepPositive r a b st fl arr cb cvb) = arr := by
  unfold stepPositive
  split
  · split
    · split
      · rfl
      · rfl
    · simp only [outArr]
      exact ifCheckAdd_arr _ r a.glob b.glob st arr
  · split
    · split
      · rfl
      · rfl
    · rfl

/-- Every continuation or break produced by `innerStep` carries the
caller-array contents through unchanged. -/
theorem innerStep_arr (r : Bool) (a : GlobI) (iA iB : Nat) (b : GlobI)
    (st : NState) (fl : NFlags) (arr : List String)
    (out : (NState × NFlags × List String) ⊕ (NState × NFlags × List String))
    (h : innerStep r a iA iB b st fl arr = .ok out) :
    outArr out = arr := by
  unfold innerStep at h
  split at h
  · rw [Except.ok.injEq] at h; subst h; rfl
  · split at h
    · exact absurd h (by simp)
    · split at h
      · rw [Except.ok.injEq] at h; subst h; rfl
      · split at h
        · rw [Except.ok.injEq] at h; subst h; rfl
        · split at h
          · rw [Except.ok.injEq] at h; subst h; rfl
          · rw [Except.ok.injEq] at h
            subst h
            split
            · exact stepNegated_arr r a b st fl arr _ _
            · exact stepPositive_arr r a b st fl arr _ _

theorem innerLoop_arr (r : Bool) (a : GlobI) (iA : Nat) :
    ∀ (bs : List (Nat × GlobI)) (st : NState) (fl : NFlags)
      (arr : List String) (res : NState × NFlags × List String),
      innerLoop r a iA bs st fl arr = .ok res → res.2.2 = arr := by
  intro bs
  induction bs with
  | nil =>
    intro st fl arr res h
    simp only [innerLoop, Except.ok.injEq] at h
    subst h
    rfl
  | cons p rest ih =>
    intro st fl arr res h
    obtain ⟨iB, b⟩ := p
    simp only [innerLoop] at h
    split at h
    · exact absurd h (by simp)
    · rename_i out hstep
      rw [Except.ok.injEq] at h
      subst h
      exact innerStep_arr r a iA iB b st fl arr _ hstep
    · rename_i next hstep
      rw [ih _ _ _ _ h]
      exact innerStep_arr r a iA iB b st fl arr _ hstep

/-- Payload array contents of an outer-loop step outcome. -/
def outArr2
    (out : (NState × List String) ⊕ (NState × List String)) : List String :=
  match out with
  | .inl next => next.2
  | .inr brk => brk.2

theorem outerRun_arr (r : Bool) (a : GlobI) (i : Nat) (st : NState)
    (arr : List String)
    (out : (NState × List String) ⊕ (NState × List String))
    (h : outerRun r a i st arr = .ok out) : outArr2 out = arr := by
  unfold outerRun at h
  split at h
  · exact absurd h (by simp)
  · rename_i st' fl' arr' hinner
    rw [Except.ok.injEq] at h
    subst h
    exact innerLoop_arr r a i _ _ _ _ _ hinner

theorem outerStep_arr (r : Bool) (a : GlobI) (i : Nat) (st : NState)
    (arr : List String)
    (out : (NState × List String) ⊕ (NState × List String))
    (h : outerStep r a i st arr = .ok out) : outArr2 out = arr := by
  unfold outerStep at h
  split at h
  · split at h
    · rw [Except.ok.injEq] at h; subst h; rfl
    · exact outerRun_arr r a i _ _ _ h
  · split at h
    · rw [Except.ok.injEq] at h; subst h; rfl
    · exact outerRun_arr r a i _ _ _ h

theorem outerLoop_arr (r : Bool) :
    ∀ (n : Nat) (st : NState) (arr : List String) (res : NState × List String),
      outerLoop r n st arr = .ok res → res.2 = arr := by
  intro n
  induction n with
  | zero =>
    intro st arr res h
    simp only [outerLoop, Except.ok.injEq] at h
    subst h
    rfl
  | succ i ih =>
    intro st arr res h
    simp only [outerLoop] at h
    split at h
    · exact ih _ _ _ h
    · rename_i a _
      split at h
      · exact absurd h (by simp)
      · rename_i out hstep
        rw [Except.ok.injEq] at h
        subst h
        exact outerStep_arr r a i st arr _ hstep
      · rename_i next hstep
        rw [ih _ _ _ h]
        exact outerStep_arr r a i st arr _ hstep

/-- Claim C9.  `normalize` never mutates the caller's array: the only
operations the source applies to it are `utils.ensureArray` (returns the
same array), `original.concat()` (returns a fresh copy, receiver untouched)
and `original.indexOf(..)` reads inside `checkAddIntersection`; the in-place
`sort` and `splice` act on the `concat` copy and the list derived from it,
and the returned list is assembled in the fresh `normalized` array.  With
the caller-array contents threaded through each of these operations, they
come back unchanged for every input and fuel. -/
theorem normalize_preserves_input :
    ∀ (fuel : Nat) (globList : List String) (restrictive : Bool),
      (normalizeCore fuel globList restrictive).2 = globList := by
  intro fuel
  induction fuel with
  | zero =>
    intro l r
    rfl
  | succ n ih =>
    intro l r
    unfold normalizeCore
    simp only [jsEnsureArray, jsConcatCopy]
    split
    · rfl
    · split
      · rfl
      · split
        · split
          · rfl
          · rfl
        · split
          · rfl
          · rename_i st' arr' houter
            have harr := outerLoop_arr r _ _ _ _ houter
            split
            · exact harr
            · split
              · exact harr
              · exact harr

/-! ## Integrity error on a mixed two-element list (claim C8)

In loose mode the first inner-loop comparison of a two-element list with
mixed root styles is the integrity check itself, so the error is always
thrown; the restrictive negate-all short-circuit (see the counterexample)
does not exist in loose mode. -/

theorem innerLoop_two_mixed (y x : GlobI) (st : NState) (fl0 : NFlags)
    (arr : List String) (hne : y.isArrayGlob ≠ x.isArrayGlob) :
    innerLoop false y 1 [(1, y), (0, x)] st fl0 arr = .error .integrity := by
  have h1 : innerStep false y 1 1 y st fl0 arr = .ok (.inl (st, fl0, arr)) :=
    rfl
  have h2 : innerStep false y 1 0 x st fl0 arr = .error .integrity := by
    unfold innerStep
    rw [if_neg (by decide : ¬((1 : Nat) == 0) = true), if_pos hne]
  simp only [innerLoop, h1, h2]

theorem outerRun_two_mixed (y x : GlobI) (st : NState) (arr : List String)
    (hl : st.list = [x, y]) (hne : y.isArrayGlob ≠ x.isArrayGlob) :
    outerRun false y 1 st arr = .error .integrity := by
  unfold outerRun
  rw [hl]
  rw [show ([x, y] : List GlobI).enum.reverse = [(1, y), (0, x)] from rfl]
  rw [innerLoop_two_mixed y x st {} arr hne]

theorem outerStep_two_mixed (y x : GlobI) (st : NState) (arr : List String)
    (hl : st.list = [x, y]) (hne : y.isArrayGlob ≠ x.isArrayGlob) :
    outerStep false y 1 st arr = .error .integrity := by
  unfold outerStep
  simp only [Bool.and_false, Bool.false_eq_true, if_false]
  split
  · exact outerRun_two_mixed y x _ arr (by simpa using hl) hne
  · exact outerRun_two_mixed y x _ arr hl hne

theorem mapInspect_two (x y : String) (gx gy : GlobI)
    (hx : inspect x = .ok gx) (hy : inspect y = .ok gy) :
    mapInspect [x, y] = .ok [gx, gy] := by
  simp only [mapInspect, hx, hy]

theorem outerLoop_two_mixed (x y : GlobI) (arr : List String)
    (hne : y.isArrayGlob ≠ x.isArrayGlob) :
    outerLoop false ([x, y] : List GlobI).length ⟨[x, y], [], [], [], false⟩
      arr = .error .integrity := by
  show outerLoop false (1 + 1) ⟨[x, y], [], [], [], false⟩ arr
    = .error .integrity
  simp only [outerLoop, List.get?]
  rw [outerStep_two_mixed y x ⟨[x, y], [], [], [], false⟩ arr rfl hne]

theorem normalizeCore_two_mixed (fuel : Nat) (s1 s2 : String)
    (g1 g2 : GlobI) (h1 : inspect s1 = .ok g1) (h2 : inspect s2 = .ok g2)
    (hne : g1.isArrayGlob ≠ g2.isArrayGlob) :
    (normalizeCore (fuel + 1) [s1, s2] false).1 = .error .integrity := by
  simp only [normalizeCore, jsEnsureArray, jsConcatCopy, Bool.false_eq_true,
    if_false]
  rw [if_neg (by simp :
    ¬(([s1, s2] : List String).length == 0) = true)]
  rw [show jsSort negLastSort [s1, s2]
    = (if negLastSort s2 s1 < 0 then [s2, s1] else [s1, s2]) from rfl]
  by_cases hc : negLastSort s2 s1 < 0
  · rw [if_pos hc]
    simp only [mapInspect_two s2 s1 g2 g1 h2 h1,
      outerLoop_two_mixed g2 g1 [s1, s2] (by simpa using hne)]
  · rw [if_neg hc]
    simp only [mapInspect_two s1 s2 g1 g2 h1 h2,
      outerLoop_two_mixed g1 g2 [s1, s2] (fun he => hne he.symm)]

/-- Claim C8 (amended).  `normalize` raises the integrity error whenever its
comparison loop inspects a pair of globs with differing root styles — in
particular, in loose mode, for every two-element list of valid patterns
mixing an array root with an object root, and concretely for
`normalize(['x.y','[0].z'])` in both modes.  The error is however not raised
unconditionally on mixed input: a restrictive-mode negate-all item can
short-circuit to `[]` before any pair is compared (see the
counterexample). -/
theorem normalize_mixed_roots_integrity :
    (∀ (s1 s2 : String) (g1 g2 : GlobI),
      inspect s1 = .ok g1 → inspect s2 = .ok g2 →
      g1.isArrayGlob ≠ g2.isArrayGlob →
      normalizeG [s1, s2] false = .error .integrity)
    ∧ normalizeG ["x.y", "[0].z"] false = .error .integrity
    ∧ normalizeG ["x.y", "[0].z"] true = .error .integrity := by
  refine ⟨?_, rfl, rfl⟩
  intro s1 s2 g1 g2 h1 h2 hne
  show (normalizeCore (63 + 1) [s1, s2] false).1 = .error .integrity
  exact normalizeCore_two_mixed 63 s1 s2 g1 g2 h1 h2 hne

/-- Counterexample to C8 as stated ("raises an integrity error whenever the
input list mixes array-root and object-root patterns"): in restrictive mode
the negate-all short circuit returns `[]` before the mixed pair is ever
compared — `normalize(['!*','![*]'], true)` returns `[]` although `!*` is an
object-root glob and `![*]` an array-root glob. -/
theorem normalize_mixed_roots_counterexample :
    normalizeG ["!*", "![*]"] true = .ok []
    ∧ (inspect "!*").map (fun g => g.isArrayGlob) = .ok false
    ∧ (inspect "![*]").map (fun g => g.isArrayGlob) = .ok true :=
  ⟨rfl, rfl, rfl⟩

/-- Witness for C8's universal part at the mixed pair `a.b` / `[1]`. -/
theorem normalize_mixed_roots_integrity_witness :
    normalizeG ["a.b", "[1]"] false = .error .integrity :=
  normalize_mixed_roots_integrity.1 "a.b" "[1]"
    ⟨"a.b", "a.b", false, false, ["a", "b"]⟩
    ⟨"[1]", "[1]", false, true, ["[1]"]⟩
    (by rfl) (by rfl) (by decide)

end NGlob
